import Mathlib

/-!
Verification of the defector work-distribution coordinator, the program in
cmd/server/server.go.  The Go program is shallowly embedded: Go strings are
Lean strings (byte slicing of ASCII literals becomes character-list slicing),
Go maps become association lists with overwrite-insert, the filesystem is an
association list from path to byte content, and the nondeterministic order of
Go map iteration is represented by an explicit selection index.  The single
RPC handler Work, the result store, the output-path derivation (Go
path.Clean / path.Join, modelled in full from their documented lexical
algorithm), the www-prefix retry toggle and the startup target loader are
all translated directly from the source.
-/

namespace Defector

/-- One pending work unit; the struct item of server.go (fields ID, URL). -/
structure Item where
  ID : String
  URL : String
deriving Repr, DecidableEq

/-- The wire message Browse of collect.proto: a work item or a result.
Data is the payload byte blob ([]byte in Go), modelled as a list of bytes. -/
structure Browse where
  ID : String
  URL : String
  Timeout : Int
  Data : List Nat
  AllTraffic : Bool
deriving Repr, DecidableEq

/-- The zero Browse message (all fields at their Go zero values). -/
def zeroBrowse : Browse := ⟨"", "", 0, [], false⟩

/-- The wire message Req of collect.proto.  The Browse field is a pointer in
Go and may be nil, hence Option here. -/
structure Req where
  WorkerID : String
  BrowsePtr : Option Browse
deriving Repr, DecidableEq

/-- The generated nil-safe getter GetBrowse of the Req message: returns the
Browse pointer, which is nil when the field is absent. -/
def Req.GetBrowse (r : Option Req) : Option Browse :=
  r.bind (fun m => m.BrowsePtr)

/-- Association-list lookup, the shallow embedding of Go map indexing. -/
def alook {β : Type} : List (String × β) → String → Option β
  | [], _ => none
  | (k, v) :: rest, j => if k = j then some v else alook rest j

/-- Association-list deletion, the shallow embedding of Go delete(m, k). -/
def aerase {β : Type} (m : List (String × β)) (k : String) : List (String × β) :=
  m.filter (fun p => p.1 ≠ k)

/-- Association-list overwrite-insert, the shallow embedding of Go m[k] = v. -/
def ainsert {β : Type} (m : List (String × β)) (k : String) (v : β) :
    List (String × β) :=
  (k, v) :: aerase m k

/-- Go strings.HasPrefix, byte-level prefix test (character level here; the
two agree because UTF-8 is self-synchronizing). -/
def goHasPfx (s pre : String) : Bool :=
  pre.data.isPrefixOf s.data

/-- Go byte-slicing s[n:], dropping the first n characters. -/
def goDrop (s : String) (n : Nat) : String :=
  String.mk (s.data.drop n)

/-- The retry mutation of server.go lines 173-179: flip the presence of a
leading www. literal on the reported URL. -/
def toggleWWW (url : String) : String :=
  if goHasPfx url "www." then goDrop url 4 else "www." ++ url

/-- Split a character list at every slash character (helper for path.Clean). -/
def splitSlash : List Char → List (List Char)
  | [] => [[]]
  | c :: rest =>
    let r := splitSlash rest
    if c = '/' then [] :: r
    else
      match r with
      | [] => [[c]]
      | s :: ss => (c :: s) :: ss

/-- Join segments with slashes (helper for path.Clean). -/
def joinSlash : List (List Char) → List Char
  | [] => []
  | [s] => s
  | s :: rest => s ++ '/' :: joinSlash rest

/-- One step of the lexical cleaning stack of Go path.Clean: drop empty and
dot segments, let a dotdot segment cancel a preceding normal segment, keep
leading dotdot segments of a relative path, drop them on a rooted path. -/
def cleanStep (rooted : Bool) (acc : List (List Char)) (seg : List Char) :
    List (List Char) :=
  if seg = [] ∨ seg = ['.'] then acc
  else if seg = ['.', '.'] then
    match acc with
    | [] => if rooted then [] else [['.', '.']]
    | a :: rest => if a = ['.', '.'] then seg :: acc else rest
  else seg :: acc

/-- Go path.Clean: the purely lexical shortest-equivalent-path algorithm
(replace repeated slashes, eliminate dot segments, eliminate dotdot segments
together with the non-dotdot segment that precedes them, eliminate dotdot
segments at the start of a rooted path; the empty result becomes a dot). -/
def pathClean (p : String) : String :=
  let rooted := p.data.head? = some '/'
  let res := ((splitSlash p.data).foldl (cleanStep rooted) []).reverse
  let body := joinSlash res
  if rooted then
    if body = [] then "/" else String.mk ('/' :: body)
  else
    if body = [] then "." else String.mk body

/-- Go path.Join for two elements: join the non-empty elements with a slash
and clean the result; all-empty input yields the empty string. -/
def pathJoin (a b : String) : String :=
  if a = "" ∧ b = "" then ""
  else if a = "" then pathClean b
  else if b = "" then pathClean a
  else pathClean (a ++ "/" ++ b)

/-- Runtime configuration of the coordinator: the command-line flags of
server.go (timeout, data directory, default scheme, all-traffic flag,
minimum accepted payload length, output suffix). -/
structure Config where
  timeout : Int
  datadir : String
  scheme : String
  alltraffic : Bool
  minDataLen : Nat
  outputSuffix : String
deriving Repr, DecidableEq

/-- outputFileName of server.go: join the data directory with the cleaned id
followed by the output suffix. -/
def outputFileName (cfg : Config) (id : String) : String :=
  pathJoin cfg.datadir (pathClean id ++ cfg.outputSuffix)

/-- A filesystem snapshot: path to byte content. -/
def FS : Type := List (String × List Nat)

/-- The mutable server state of server.go: the work ledger, the worker
registry, the completed counter done, and the filesystem it writes to. -/
structure ServerState where
  work : List (String × Item)
  workers : List String
  done : Nat
  files : List (String × List Nat)
deriving Repr, DecidableEq

/-- The store function of server.go: for a non-empty payload write the file
at the id-derived path (the write may fail, modelled by the writeOk flag,
in which case store returns the error before counting); then increment the
completed counter.  An empty payload increments the counter without a write. -/
def store (cfg : Config) (writeOk : Bool) (st : ServerState) (b : Browse) :
    Option ServerState :=
  if 0 < b.Data.length then
    if writeOk then
      some { st with
        files := ainsert st.files (outputFileName cfg b.ID) b.Data,
        done := st.done + 1 }
    else none
  else
    some { st with done := st.done + 1 }

/-- The worker-registry update at the top of Work: record a never-seen
worker identity. -/
def registryUpdate (st : ServerState) (wid : String) : ServerState :=
  if st.workers.contains wid then st
  else { st with workers := wid :: st.workers }

/-- The result-intake section of Work (server.go lines 159-187): nothing on
first contact; on an accepted payload store it and delete the id from the
ledger if still present; on a rejected payload re-insert the unit with the
www-toggled URL.  Returns none when store propagates a write error. -/
def intake (cfg : Config) (writeOk : Bool) (st : ServerState) (b : Browse) :
    Option ServerState :=
  if b.ID = "" then some st
  else if cfg.minDataLen ≤ b.Data.length then
    match store cfg writeOk st b with
    | none => none
    | some st1 =>
      if (alook st1.work b.ID).isSome then
        some { st1 with work := aerase st1.work b.ID }
      else some st1
  else
    some { st with work := ainsert st.work b.ID ⟨b.ID, toggleWWW b.URL⟩ }

/-- The assignment section of Work (server.go lines 189-204): pick one
arbitrary ledger entry (the arbitrary Go map iteration order is represented
by the selection index sel), remove it and return it with the configured
timeout and all-traffic flag; an empty ledger yields the sentinel reply with
empty id carrying only the timeout. -/
def assign (cfg : Config) (sel : Nat) (st : ServerState) : ServerState × Browse :=
  if st.work.isEmpty then (st, { zeroBrowse with Timeout := cfg.timeout })
  else
    let p := st.work.getD (sel % st.work.length) ("", ⟨"", ""⟩)
    ({ st with work := aerase st.work p.1 },
     { ID := p.2.ID, URL := p.2.URL, Timeout := cfg.timeout, Data := [],
       AllTraffic := cfg.alltraffic })

/-- The possible outcomes of one Work call: a normal reply, a propagated
store error (the Go handler returns a nil reply and the error), or a runtime
panic from dereferencing a nil Browse pointer. -/
inductive WorkResult where
  | panicked
  | ioError (st : ServerState)
  | ok (st : ServerState) (out : Browse)
deriving Repr, DecidableEq

/-- The Work RPC handler of server.go: registry update, then result intake
on the (unchecked, nil-dereferencing) Browse field of the request, then
assignment of the next unit. -/
def Work (cfg : Config) (writeOk : Bool) (sel : Nat) (st : ServerState)
    (req : Req) : WorkResult :=
  let st0 := registryUpdate st req.WorkerID
  match req.BrowsePtr with
  | none => .panicked
  | some b =>
    match intake cfg writeOk st0 b with
    | none => .ioError st0
    | some st1 =>
      let r := assign cfg sel st1
      .ok r.1 r.2

/-- Does a path exist in the filesystem snapshot (os.Stat not failing)? -/
def fileExists (fs : List (String × List Nat)) (p : String) : Bool :=
  (alook fs p).isSome

/-- Scheme detection for the normalization performed by the target loader.
Modelled from the external net/url library: a target string carries a scheme
when a colon occurs before any slash. -/
def hasSchemeColon (t : String) : Bool :=
  ((t.data.takeWhile (fun c => c ≠ '/')).contains ':')

/-- Target normalization of the loader loop (url.Parse, default-scheme
insertion, URL.String).  Modelled from the external net/url library for the
target strings this coordinator handles: a string already carrying a scheme
round-trips unchanged, a scheme-less one gets the configured scheme glued on
with the double-slash separator, and an empty configured scheme leaves it
unchanged. -/
def normalizeTarget (scheme : String) (t : String) : String :=
  if hasSchemeColon t then t
  else if scheme = "" then t
  else scheme ++ "://" ++ t

/-- One iteration of the work-creation loop of main (server.go lines 86-103)
for sample index s and table row pg: derive the id, and either pre-count an
already-present output file or insert the normalized unit into the ledger. -/
def loadStep (cfg : Config) (fs : List (String × List Nat))
    (acc : List (String × Item) × Nat) (s : Nat) (pg : String × String) :
    List (String × Item) × Nat :=
  let id := pg.1 ++ "-" ++ toString s
  if fileExists fs (outputFileName cfg id) then (acc.1, acc.2 + 1)
  else (ainsert acc.1 id ⟨id, normalizeTarget cfg.scheme pg.2⟩, acc.2)

/-- The full work-creation nested loop of main: outer loop over sample
indices, inner loop over table rows, starting from the empty ledger and a
zero completed counter. -/
def loadAll (cfg : Config) (fs : List (String × List Nat))
    (pages : List (String × String)) (samples : Nat) :
    List (String × Item) × Nat :=
  (List.range samples).foldl
    (fun acc s => pages.foldl (fun a pg => loadStep cfg fs a s pg) acc)
    ([], 0)

/-- The server state right after startup: the loader has seeded the ledger
and the completed counter, the registry is empty. -/
def initState (cfg : Config) (fs : List (String × List Nat))
    (pages : List (String × String)) (samples : Nat) : ServerState :=
  let r := loadAll cfg fs pages samples
  { work := r.1, workers := [], done := r.2, files := fs }

/-- Is a path inside a directory: it extends the directory with a slash. -/
def insideDir (dir p : String) : Bool :=
  goHasPfx p (dir ++ "/")

/-- The loader iteration space flattened into one list: all (sample index,
table row) pairs, outer loop first, exactly the nesting order of main. -/
def jobs (pages : List (String × String)) (samples : Nat) :
    List (Nat × (String × String)) :=
  (List.range samples).flatMap (fun s => pages.map (fun pg => (s, pg)))

/-- The WorkUnit id derived for one loader iteration. -/
def jobId (j : Nat × (String × String)) : String :=
  j.2.1 ++ "-" ++ toString j.1

/-- The conserved quantity of the coordinator: ledger size plus completed
counter plus the number of handed-out-but-not-yet-reported units. -/
def wipMeasure (s : ServerState × List String) : Nat :=
  s.1.work.length + s.1.done + s.2.length

/-- One observed poll together with its ghost bookkeeping of outstanding
assignments: a reported id is erased from the outstanding multiset and a
handed-out id is pushed onto it. -/
def stepPoll (cfg : Config) (writeOk : Bool) (sel : Nat)
    (s : ServerState × List String) (req : Req) :
    Option (ServerState × List String) :=
  match req.BrowsePtr with
  | none => none
  | some b =>
    match Work cfg writeOk sel s.1 req with
    | .panicked => none
    | .ioError st0 => some (st0, s.2)
    | .ok st2 out =>
      let outs1 := if b.ID = "" then s.2 else s.2.erase b.ID
      some (st2, if out.ID = "" then outs1 else out.ID :: outs1)

/-- Reachability by a sequence of polls from well-behaved workers: every
reported non-empty id was previously handed out in this run (it is in the
outstanding multiset) and each handout is reported at most once (reporting
consumes one occurrence). -/
inductive Reach (cfg : Config) :
    ServerState × List String → ServerState × List String → Prop
  | refl (s) : Reach cfg s s
  | step {s t u} (req : Req) (writeOk : Bool) (sel : Nat) (b : Browse) :
      Reach cfg s t →
      req.BrowsePtr = some b →
      (b.ID = "" ∨ b.ID ∈ t.2) →
      stepPoll cfg writeOk sel t req = some u →
      Reach cfg s u

/-- A configuration with the default flag values of server.go. -/
def cfgD : Config := ⟨15, "data", "http", false, 25, ".pcap"⟩

/-- The configuration of the end-to-end scenario: defaults except a minimum
accepted length of 10 and an empty default scheme. -/
def cfg9 : Config := ⟨15, "data", "", false, 10, ".pcap"⟩

/-- The post-startup state of the scenario: one-row table, one sample,
empty filesystem. -/
def st9 : ServerState := initState cfg9 [] [("a", "a.com")] 1

/-- The scenario state after the first poll handed out the only unit. -/
def st9b : ServerState := { work := [], workers := ["w1"], done := 0, files := [] }

/-- A five-byte payload, below the scenario threshold of 10. -/
def pay5 : List Nat := [1, 2, 3, 4, 5]

/-- A twelve-byte payload, above the scenario threshold of 10. -/
def pay12 : List Nat := [1, 2, 3, 4, 5, 6, 7, 8, 9, 10, 11, 12]

/-! ## Helper lemmas about the embedded primitives -/

theorem str_mk_data (s : String) : String.mk s.data = s := by
  cases s
  rfl

theorem str_data_append (a b : String) : (a ++ b).data = a.data ++ b.data := by
  cases a
  cases b
  rfl

theorem str_ext {s t : String} (h : s.data = t.data) : s = t := by
  cases s
  cases t
  simp_all

theorem goHasPfx_iff {s pre : String} :
    goHasPfx s pre = true ↔ pre.data <+: s.data := by
  simp [goHasPfx, List.isPrefixOf_iff_prefix]

theorem pfx_append_cancel {a b c : List Char} : a ++ b <+: a ++ c ↔ b <+: c := by
  constructor
  · rintro ⟨t, ht⟩
    refine ⟨t, ?_⟩
    rw [List.append_assoc] at ht
    exact List.append_cancel_left ht
  · rintro ⟨t, ht⟩
    exact ⟨t, by simp [← ht]⟩

theorem aerase_cons {β : Type} (a : String) (v : β) (rest : List (String × β))
    (k : String) :
    aerase ((a, v) :: rest) k =
      if a = k then aerase rest k else (a, v) :: aerase rest k := by
  by_cases ha : a = k <;> simp [aerase, List.filter_cons, ha]

theorem alook_aerase_ne {β : Type} {m : List (String × β)} {k j : String}
    (h : j ≠ k) : alook (aerase m k) j = alook m j := by
  induction m with
  | nil => rfl
  | cons p rest ih =>
    rcases p with ⟨a, v⟩
    rw [aerase_cons]
    by_cases ha : a = k
    · have haj : ¬a = j := by rw [ha]; exact fun he => h he.symm
      rw [if_pos ha, ih]
      simp [alook, haj]
    · rw [if_neg ha]
      by_cases haj : a = j <;> simp [alook, haj, ih]

theorem alook_aerase_self {β : Type} {m : List (String × β)} {k : String} :
    alook (aerase m k) k = none := by
  induction m with
  | nil => rfl
  | cons p rest ih =>
    rcases p with ⟨a, v⟩
    rw [aerase_cons]
    by_cases ha : a = k
    · rw [if_pos ha]
      exact ih
    · rw [if_neg ha]
      simp [alook, ha, ih]

theorem alook_aerase_none {β : Type} {m : List (String × β)} {k j : String}
    (h : alook m j = none) : alook (aerase m k) j = none := by
  by_cases hj : j = k
  · rw [hj]; exact alook_aerase_self
  · rw [alook_aerase_ne hj]; exact h

theorem alook_ainsert_self {β : Type} {m : List (String × β)} {k : String}
    {v : β} : alook (ainsert m k v) k = some v := by
  simp [ainsert, alook]

theorem alook_ainsert_ne {β : Type} {m : List (String × β)} {k j : String}
    {v : β} (h : j ≠ k) : alook (ainsert m k v) j = alook m j := by
  have : k ≠ j := fun he => h he.symm
  simp only [ainsert, alook, if_neg this]
  exact alook_aerase_ne h

theorem len_aerase_le {β : Type} (m : List (String × β)) (k : String) :
    (aerase m k).length ≤ m.length :=
  List.length_filter_le _ _

theorem len_ainsert_le {β : Type} (m : List (String × β)) (k : String) (v : β) :
    (ainsert m k v).length ≤ m.length + 1 := by
  simpa [ainsert] using Nat.succ_le_succ (len_aerase_le m k)

theorem len_aerase_lt {β : Type} {m : List (String × β)} {p : String × β}
    (h : p ∈ m) : (aerase m p.1).length < m.length := by
  apply List.length_filter_lt_length_iff_exists.mpr
  exact ⟨p, h, by simp⟩

theorem registry_work (st : ServerState) (w : String) :
    (registryUpdate st w).work = st.work := by
  unfold registryUpdate
  split <;> rfl

theorem registry_done (st : ServerState) (w : String) :
    (registryUpdate st w).done = st.done := by
  unfold registryUpdate
  split <;> rfl

theorem registry_files (st : ServerState) (w : String) :
    (registryUpdate st w).files = st.files := by
  unfold registryUpdate
  split <;> rfl

theorem store_pos {cfg : Config} {st : ServerState} {b : Browse}
    (h : b.Data ≠ []) :
    store cfg true st b =
      some { st with
        files := ainsert st.files (outputFileName cfg b.ID) b.Data,
        done := st.done + 1 } := by
  have hpos : 0 < b.Data.length := List.length_pos.mpr h
  simp [store, hpos]

theorem store_nil {cfg : Config} {wOk : Bool} {st : ServerState} {b : Browse}
    (h : b.Data = []) :
    store cfg wOk st b = some { st with done := st.done + 1 } := by
  simp [store, h]

theorem store_fail {cfg : Config} {st : ServerState} {b : Browse}
    (h : b.Data ≠ []) : store cfg false st b = none := by
  have hpos : 0 < b.Data.length := List.length_pos.mpr h
  simp [store, hpos]

theorem intake_first {cfg : Config} {wOk : Bool} {st : ServerState} {b : Browse}
    (h : b.ID = "") : intake cfg wOk st b = some st := by
  simp [intake, h]

theorem intake_reject (cfg : Config) (wOk : Bool) (st : ServerState) {b : Browse}
    (hid : b.ID ≠ "") (hlen : b.Data.length < cfg.minDataLen) :
    intake cfg wOk st b =
      some { st with work := ainsert st.work b.ID ⟨b.ID, toggleWWW b.URL⟩ } := by
  rw [intake, if_neg hid, if_neg (Nat.not_le.mpr hlen)]

theorem intake_accept {cfg : Config} {wOk : Bool} {st st1 : ServerState}
    {b : Browse} (hid : b.ID ≠ "") (hlen : cfg.minDataLen ≤ b.Data.length)
    (hst : store cfg wOk st b = some st1) :
    ∃ st2, intake cfg wOk st b = some st2 ∧
      st2.done = st1.done ∧ st2.files = st1.files ∧ st2.workers = st1.workers ∧
      alook st2.work b.ID = none ∧
      (∀ j, j ≠ b.ID → alook st2.work j = alook st1.work j) ∧
      st2.work.length ≤ st1.work.length := by
  rw [intake, if_neg hid, if_pos hlen, hst]
  dsimp only
  by_cases hmem : (alook st1.work b.ID).isSome
  · refine ⟨{ st1 with work := aerase st1.work b.ID }, by rw [if_pos hmem],
      rfl, rfl, rfl, alook_aerase_self, ?_, ?_⟩
    · intro j hj
      exact alook_aerase_ne hj
    · exact len_aerase_le _ _
  · refine ⟨st1, by rw [if_neg hmem], rfl, rfl, rfl, ?_, fun j _ => rfl, le_refl _⟩
    exact Option.not_isSome_iff_eq_none.mp hmem

theorem assign_nil {cfg : Config} {sel : Nat} {st : ServerState}
    (h : st.work = []) :
    assign cfg sel st = (st, { zeroBrowse with Timeout := cfg.timeout }) := by
  simp [assign, h]

theorem assign_cons (cfg : Config) (sel : Nat) {st : ServerState}
    (h : st.work ≠ []) :
    ∃ p, p ∈ st.work ∧
      assign cfg sel st =
        ({ st with work := aerase st.work p.1 },
         ⟨p.2.ID, p.2.URL, cfg.timeout, [], cfg.alltraffic⟩) := by
  refine ⟨st.work.getD (sel % st.work.length) ("", ⟨"", ""⟩), ?_, ?_⟩
  · have hlt : sel % st.work.length < st.work.length :=
      Nat.mod_lt _ (List.length_pos.mpr h)
    rw [List.getD_eq_getElem _ _ hlt]
    exact st.work.getElem_mem hlt
  · have hne : ¬st.work.isEmpty = true := by
      simpa [List.isEmpty_iff] using h
    simp [assign, hne]

theorem assign_keeps (cfg : Config) (sel : Nat) (st : ServerState) :
    (assign cfg sel st).1.done = st.done ∧
    (assign cfg sel st).1.files = st.files ∧
    (assign cfg sel st).1.workers = st.workers ∧
    ∀ j, alook st.work j = none → alook (assign cfg sel st).1.work j = none := by
  by_cases h : st.work = []
  · rw [assign_nil h]
    exact ⟨rfl, rfl, rfl, fun j hj => hj⟩
  · obtain ⟨p, _, he⟩ := assign_cons cfg sel h
    rw [he]
    exact ⟨rfl, rfl, rfl, fun j hj => alook_aerase_none hj⟩

theorem assign_shrinks (cfg : Config) (sel : Nat) (st : ServerState) :
    (assign cfg sel st).1.work.length +
      (if (assign cfg sel st).2.ID = "" then 0 else 1) ≤ st.work.length := by
  by_cases h : st.work = []
  · rw [assign_nil h]
    simp [h, zeroBrowse]
  · obtain ⟨p, hp, he⟩ := assign_cons cfg sel h
    rw [he]
    have := len_aerase_lt hp
    by_cases hid : p.2.ID = "" <;> simp [hid] <;> omega

theorem work_ok {cfg : Config} {wOk : Bool} {sel : Nat} {st st1 : ServerState}
    {req : Req} {b : Browse} (hb : req.BrowsePtr = some b)
    (hint : intake cfg wOk (registryUpdate st req.WorkerID) b = some st1) :
    Work cfg wOk sel st req =
      .ok (assign cfg sel st1).1 (assign cfg sel st1).2 := by
  unfold Work
  rw [hb]
  dsimp only
  rw [hint]

theorem work_err {cfg : Config} {wOk : Bool} {sel : Nat} {st : ServerState}
    {req : Req} {b : Browse} (hb : req.BrowsePtr = some b)
    (hint : intake cfg wOk (registryUpdate st req.WorkerID) b = none) :
    Work cfg wOk sel st req = .ioError (registryUpdate st req.WorkerID) := by
  unfold Work
  rw [hb]
  dsimp only
  rw [hint]

/-! ## The claims -/

/-- Claim C1: on a poll reporting a non-empty id with a payload at least the
configured minimum, when the store succeeds the call returns normally, the
payload is persisted at the id-derived path exactly when it is non-empty
(files untouched for an empty accepted payload), the completed counter grows
by exactly one, and the reported id is absent from the ledger afterwards. -/
theorem c1_accepted_intake (cfg : Config) (sel : Nat) (st : ServerState)
    (req : Req) (b : Browse) (hb : req.BrowsePtr = some b) (hid : b.ID ≠ "")
    (hlen : cfg.minDataLen ≤ b.Data.length) :
    ∃ st2 out, Work cfg true sel st req = .ok st2 out ∧
      st2.done = st.done + 1 ∧
      (b.Data ≠ [] → alook st2.files (outputFileName cfg b.ID) = some b.Data) ∧
      (b.Data = [] → st2.files = st.files) ∧
      alook st2.work b.ID = none := by
  by_cases hD : b.Data = []
  · have hst : store cfg true (registryUpdate st req.WorkerID) b =
        some { registryUpdate st req.WorkerID with
          done := (registryUpdate st req.WorkerID).done + 1 } := store_nil hD
    obtain ⟨stI, hI, hdone, hfiles, _, hnone, _, _⟩ := intake_accept hid hlen hst
    refine ⟨(assign cfg sel stI).1, (assign cfg sel stI).2,
      work_ok hb hI, ?_, ?_, ?_, ?_⟩
    · rw [(assign_keeps cfg sel stI).1, hdone]
      simp [registry_done]
    · intro hne
      exact absurd hD hne
    · intro _
      rw [(assign_keeps cfg sel stI).2.1, hfiles]
      simp [registry_files]
    · exact (assign_keeps cfg sel stI).2.2.2 _ hnone
  · have hst : store cfg true (registryUpdate st req.WorkerID) b =
        some { registryUpdate st req.WorkerID with
          files := ainsert (registryUpdate st req.WorkerID).files
            (outputFileName cfg b.ID) b.Data,
          done := (registryUpdate st req.WorkerID).done + 1 } := store_pos hD
    obtain ⟨stI, hI, hdone, hfiles, _, hnone, _, _⟩ := intake_accept hid hlen hst
    refine ⟨(assign cfg sel stI).1, (assign cfg sel stI).2,
      work_ok hb hI, ?_, ?_, ?_, ?_⟩
    · rw [(assign_keeps cfg sel stI).1, hdone]
      simp [registry_done]
    · intro _
      rw [(assign_keeps cfg sel stI).2.1, hfiles]
      exact alook_ainsert_self
    · intro h
      exact absurd h hD
    · exact (assign_keeps cfg sel stI).2.2.2 _ hnone

/-- Witness for C1 at a concrete accepted report: the payload meets the
threshold, the file appears under data/a-0.pcap, the counter becomes 1 and
the id a-0 leaves the ledger. -/
theorem c1_accepted_intake_witness :
    ((⟨"w1", some ⟨"a-0", "a.com", 15, pay12, false⟩⟩ : Req).BrowsePtr =
      some ⟨"a-0", "a.com", 15, pay12, false⟩) ∧
    (("a-0" : String) ≠ "") ∧ (cfg9.minDataLen ≤ pay12.length) ∧
    ∃ st2 out,
      Work cfg9 true 0 st9 ⟨"w1", some ⟨"a-0", "a.com", 15, pay12, false⟩⟩ =
        .ok st2 out ∧
      st2.done = st9.done + 1 ∧
      (pay12 ≠ [] → alook st2.files (outputFileName cfg9 "a-0") = some pay12) ∧
      (pay12 = [] → st2.files = st9.files) ∧
      alook st2.work "a-0" = none :=
  ⟨rfl, by decide, by decide,
    c1_accepted_intake cfg9 0 st9 ⟨"w1", some ⟨"a-0", "a.com", 15, pay12, false⟩⟩
      ⟨"a-0", "a.com", 15, pay12, false⟩ rfl (by decide) (by decide)⟩

/-- Claim C2: on a poll reporting a non-empty id with a payload below the
configured minimum, the intake inserts at that id, unconditionally
overwriting, a retry unit whose target is the reported target with the
leading www. literal flipped; the completed counter and the filesystem are
untouched by the whole call. -/
theorem c2_rejected_retry (cfg : Config) (wOk : Bool) (sel : Nat)
    (st : ServerState) (req : Req) (b : Browse) (hb : req.BrowsePtr = some b)
    (hid : b.ID ≠ "") (hlen : b.Data.length < cfg.minDataLen) :
    ∃ st1, intake cfg wOk (registryUpdate st req.WorkerID) b = some st1 ∧
      st1.work = ainsert (registryUpdate st req.WorkerID).work b.ID
        ⟨b.ID, toggleWWW b.URL⟩ ∧
      alook st1.work b.ID = some ⟨b.ID, toggleWWW b.URL⟩ ∧
      (∀ j, j ≠ b.ID → alook st1.work j = alook st.work j) ∧
      st1.done = st.done ∧ st1.files = st.files ∧
      ∃ st2 out, Work cfg wOk sel st req = .ok st2 out ∧
        st2.done = st.done ∧ st2.files = st.files := by
  have hI := intake_reject cfg wOk (registryUpdate st req.WorkerID) hid hlen
  refine ⟨_, hI, rfl, alook_ainsert_self, ?_, ?_, ?_, ?_⟩
  · intro j hj
    show alook (ainsert (registryUpdate st req.WorkerID).work b.ID
      ⟨b.ID, toggleWWW b.URL⟩) j = alook st.work j
    rw [alook_ainsert_ne hj, registry_work]
  · show (registryUpdate st req.WorkerID).done = st.done
    exact registry_done st _
  · show (registryUpdate st req.WorkerID).files = st.files
    exact registry_files st _
  · refine ⟨(assign cfg sel _).1, (assign cfg sel _).2, work_ok hb hI, ?_, ?_⟩
    · rw [(assign_keeps cfg sel _).1]
      show (registryUpdate st req.WorkerID).done = st.done
      exact registry_done st _
    · rw [(assign_keeps cfg sel _).2.1]
      show (registryUpdate st req.WorkerID).files = st.files
      exact registry_files st _

/-- Witness for C2 at a concrete rejected report: the five-byte payload is
below the threshold of 10 and the ledger re-gains a-0 with the www-toggled
target. -/
theorem c2_rejected_retry_witness :
    ((⟨"w1", some ⟨"a-0", "a.com", 15, pay5, false⟩⟩ : Req).BrowsePtr =
      some ⟨"a-0", "a.com", 15, pay5, false⟩) ∧
    (("a-0" : String) ≠ "") ∧ (pay5.length < cfg9.minDataLen) ∧
    ∃ st1, intake cfg9 true (registryUpdate st9b "w1")
        ⟨"a-0", "a.com", 15, pay5, false⟩ = some st1 ∧
      st1.work = ainsert (registryUpdate st9b "w1").work "a-0"
        ⟨"a-0", toggleWWW "a.com"⟩ ∧
      alook st1.work "a-0" = some ⟨"a-0", toggleWWW "a.com"⟩ ∧
      (∀ j, j ≠ "a-0" → alook st1.work j = alook st9b.work j) ∧
      st1.done = st9b.done ∧ st1.files = st9b.files ∧
      ∃ st2 out, Work cfg9 true 0 st9b
          ⟨"w1", some ⟨"a-0", "a.com", 15, pay5, false⟩⟩ = .ok st2 out ∧
        st2.done = st9b.done ∧ st2.files = st9b.files :=
  ⟨rfl, by decide, by decide,
    c2_rejected_retry cfg9 true 0 st9b ⟨"w1", some ⟨"a-0", "a.com", 15, pay5, false⟩⟩
      ⟨"a-0", "a.com", 15, pay5, false⟩ rfl (by decide) (by decide)⟩

/-- Claim C3: after result intake, the call replies with the sentinel (empty
id, configured timeout) exactly when the ledger is empty at that point;
otherwise it replies with some ledger unit together with the timeout and the
all-traffic flag, and that unit is removed from the ledger before the call
completes. -/
theorem c3_assignment (cfg : Config) (wOk : Bool) (sel : Nat)
    (st : ServerState) (req : Req) (b : Browse) (st1 : ServerState)
    (hb : req.BrowsePtr = some b)
    (hint : intake cfg wOk (registryUpdate st req.WorkerID) b = some st1)
    (hwf : ∀ p ∈ st1.work, (p : String × Item).2.ID = p.1 ∧ p.1 ≠ "") :
    (st1.work = [] →
      Work cfg wOk sel st req =
        .ok st1 { zeroBrowse with Timeout := cfg.timeout }) ∧
    (st1.work ≠ [] →
      ∃ p ∈ st1.work,
        Work cfg wOk sel st req =
          .ok { st1 with work := aerase st1.work p.1 }
            ⟨p.2.ID, p.2.URL, cfg.timeout, [], cfg.alltraffic⟩ ∧
        p.2.ID ≠ "" ∧ alook (aerase st1.work p.1) p.1 = none) := by
  constructor
  · intro h
    rw [work_ok hb hint, assign_nil h]
  · intro h
    obtain ⟨p, hp, he⟩ := assign_cons cfg sel h
    refine ⟨p, hp, ?_, ?_, alook_aerase_self⟩
    · rw [work_ok hb hint, he]
    · rw [(hwf p hp).1]
      exact (hwf p hp).2

/-- Witness for C3 at a concrete first-contact poll against a one-unit
ledger: the intake leaves the ledger unchanged and the call hands out the
unit a-0. -/
theorem c3_assignment_witness :
    ((⟨"w1", some zeroBrowse⟩ : Req).BrowsePtr = some zeroBrowse) ∧
    (intake cfg9 true (registryUpdate st9 "w1") zeroBrowse =
      some (registryUpdate st9 "w1")) ∧
    (∀ p ∈ (registryUpdate st9 "w1").work,
      (p : String × Item).2.ID = p.1 ∧ p.1 ≠ "") ∧
    (((registryUpdate st9 "w1").work = [] →
      Work cfg9 true 0 st9 ⟨"w1", some zeroBrowse⟩ =
        .ok (registryUpdate st9 "w1") { zeroBrowse with Timeout := cfg9.timeout }) ∧
    ((registryUpdate st9 "w1").work ≠ [] →
      ∃ p ∈ (registryUpdate st9 "w1").work,
        Work cfg9 true 0 st9 ⟨"w1", some zeroBrowse⟩ =
          .ok { registryUpdate st9 "w1" with
              work := aerase (registryUpdate st9 "w1").work p.1 }
            ⟨p.2.ID, p.2.URL, cfg9.timeout, [], cfg9.alltraffic⟩ ∧
        p.2.ID ≠ "" ∧
        alook (aerase (registryUpdate st9 "w1").work p.1) p.1 = none)) :=
  ⟨rfl, by decide, by decide,
    c3_assignment cfg9 true 0 st9 _ _ _ rfl (by decide) (by decide)⟩

/-- Claim C6: when the write fails while persisting an accepted non-empty
payload, the call propagates the I/O error: no counter increment, no ledger
change, no file change, and no next assignment is handed out (the outcome is
the error, not a normal reply). -/
theorem c6_store_error (cfg : Config) (sel : Nat) (st : ServerState)
    (req : Req) (b : Browse) (hb : req.BrowsePtr = some b) (hid : b.ID ≠ "")
    (hlen : cfg.minDataLen ≤ b.Data.length) (hne : b.Data ≠ []) :
    Work cfg false sel st req = .ioError (registryUpdate st req.WorkerID) ∧
    (registryUpdate st req.WorkerID).work = st.work ∧
    (registryUpdate st req.WorkerID).done = st.done ∧
    (registryUpdate st req.WorkerID).files = st.files := by
  have hI : intake cfg false (registryUpdate st req.WorkerID) b = none := by
    rw [intake, if_neg hid, if_pos hlen, store_fail hne]
  exact ⟨work_err hb hI, registry_work st _, registry_done st _,
    registry_files st _⟩

/-- Witness for C6 at a concrete failing write: the accepted twelve-byte
payload cannot be persisted and the call ends in the propagated error with
the state unchanged. -/
theorem c6_store_error_witness :
    ((⟨"w1", some ⟨"a-0", "a.com", 15, pay12, false⟩⟩ : Req).BrowsePtr =
      some ⟨"a-0", "a.com", 15, pay12, false⟩) ∧
    (("a-0" : String) ≠ "") ∧ (cfg9.minDataLen ≤ pay12.length) ∧
    (pay12 ≠ []) ∧
    (Work cfg9 false 0 st9b ⟨"w1", some ⟨"a-0", "a.com", 15, pay12, false⟩⟩ =
      .ioError (registryUpdate st9b "w1") ∧
    (registryUpdate st9b "w1").work = st9b.work ∧
    (registryUpdate st9b "w1").done = st9b.done ∧
    (registryUpdate st9b "w1").files = st9b.files) :=
  ⟨rfl, by decide, by decide, by decide,
    c6_store_error cfg9 0 st9b _ _ rfl (by decide) (by decide) (by decide)⟩

/-- Claim C10: the handler dereferences the Browse field of the request
without a nil check (it never calls the nil-safe generated getter), so a
request with an absent previousResult message makes the call panic instead
of being processed like a first contact. -/
theorem c10_nil_browse_panics (cfg : Config) (wOk : Bool) (sel : Nat)
    (st : ServerState) (wid : String) :
    Work cfg wOk sel st ⟨wid, none⟩ = .panicked := rfl

/-- Claim C4 counterexample: the www toggle is not an involution on every
string; a target already carrying a doubled www. literal does not come back
after two toggles. -/
theorem c4_counterexample :
    toggleWWW (toggleWWW "www.www.example.com") ≠ "www.www.example.com" := by
  decide

/-- Claim C4 (amended): applying the www toggle twice yields the original
string exactly when the string does not itself begin with the doubled
literal www.www. -/
theorem c4_toggle_twice (t : String) :
    toggleWWW (toggleWWW t) = t ↔ goHasPfx t "www.www." = false := by
  by_cases hp : goHasPfx t "www."
  · obtain ⟨r, hr⟩ := goHasPfx_iff.mp hp
    have hrd : (String.mk r).data = r := rfl
    have h4 : ("www." : String).data.length = 4 := rfl
    have h1 : toggleWWW t = String.mk r := by
      unfold toggleWWW
      rw [if_pos hp]
      unfold goDrop
      congr 1
      rw [← hr, ← h4]
      exact List.drop_left _ _
    by_cases hp2 : goHasPfx (String.mk r) "www."
    · obtain ⟨r2, hr2⟩ := goHasPfx_iff.mp hp2
      rw [hrd] at hr2
      have h2 : toggleWWW (String.mk r) = String.mk r2 := by
        unfold toggleWWW
        rw [if_pos hp2]
        unfold goDrop
        congr 1
        rw [hrd, ← hr2, ← h4]
        exact List.drop_left _ _
      have hlen8 : t.data.length =
          ("www." : String).data.length +
            (("www." : String).data.length + r2.length) := by
        rw [← hr, ← hr2]
        simp
        omega
      have hL : ¬toggleWWW (toggleWWW t) = t := by
        rw [h1, h2]
        intro he
        have hd := congrArg String.data he
        have hld := congrArg List.length hd
        simp only [hrd] at hld
        rw [h4] at hlen8
        omega
      have hR : goHasPfx t "www.www." = true := by
        apply goHasPfx_iff.mpr
        refine ⟨r2, ?_⟩
        have h8 : ("www.www." : String).data =
            ("www." : String).data ++ ("www." : String).data := rfl
        rw [h8, List.append_assoc, hr2, hr]
      simp [hL, hR]
    · have h2 : toggleWWW (String.mk r) = "www." ++ String.mk r := by
        unfold toggleWWW
        rw [if_neg hp2]
      have hL : toggleWWW (toggleWWW t) = t := by
        rw [h1, h2]
        apply str_ext
        rw [str_data_append, hrd, hr]
      have hR : goHasPfx t "www.www." = false := by
        cases hx : goHasPfx t "www.www." with
        | false => rfl
        | true =>
          obtain ⟨r3, hr3⟩ := goHasPfx_iff.mp hx
          have h8 : ("www.www." : String).data =
              ("www." : String).data ++ ("www." : String).data := rfl
          rw [h8, List.append_assoc, ← hr] at hr3
          have hcc := List.append_cancel_left hr3
          exact absurd (goHasPfx_iff.mpr ⟨r3, hcc⟩) hp2
      simp [hL, hR]
  · have h1 : toggleWWW t = "www." ++ t := by
      unfold toggleWWW
      rw [if_neg hp]
    have hp1 : goHasPfx ("www." ++ t) "www." = true := by
      apply goHasPfx_iff.mpr
      rw [str_data_append]
      exact List.prefix_append _ _
    have h2 : toggleWWW ("www." ++ t) = t := by
      unfold toggleWWW
      rw [if_pos hp1]
      unfold goDrop
      rw [str_data_append]
      have h4 : ("www." : String).data.length = 4 := rfl
      rw [← h4, List.drop_left]
    have hL : toggleWWW (toggleWWW t) = t := by rw [h1, h2]
    have hR : goHasPfx t "www.www." = false := by
      cases hx : goHasPfx t "www.www." with
      | false => rfl
      | true =>
        obtain ⟨r3, hr3⟩ := goHasPfx_iff.mp hx
        have h8 : ("www.www." : String).data =
            ("www." : String).data ++ ("www." : String).data := rfl
        rw [h8, List.append_assoc] at hr3
        exact absurd (goHasPfx_iff.mpr ⟨("www." : String).data ++ r3, hr3⟩) hp
    simp [hL, hR]

/-- Claim C5 counterexample: the sanitization of outputFileName does not
confine every id to the data directory; an id made of leading dotdot
segments yields a path outside it. -/
theorem c5_counterexample :
    insideDir cfgD.datadir (outputFileName cfgD "../../etc/passwd") = false ∧
    outputFileName cfgD "../../etc/passwd" = "../etc/passwd.pcap" := by
  constructor
  · decide
  · decide

/-- Claim C5 (amended): for every id and non-empty payload, store writes the
payload at path.Join of the data directory with the path.Clean of the id
followed by the suffix, and increments the counter; the cleaning collapses
interior traversal segments but does not prevent escape for ids whose
cleaned form begins with dotdot segments. -/
theorem c5_store_path (cfg : Config) (st : ServerState) (b : Browse)
    (hne : b.Data ≠ []) :
    store cfg true st b =
      some { st with
        files := ainsert st.files
          (pathJoin cfg.datadir (pathClean b.ID ++ cfg.outputSuffix)) b.Data,
        done := st.done + 1 } ∧
    alook (ainsert st.files
        (pathJoin cfg.datadir (pathClean b.ID ++ cfg.outputSuffix)) b.Data)
      (pathJoin cfg.datadir (pathClean b.ID ++ cfg.outputSuffix)) =
      some b.Data := by
  constructor
  · rw [store_pos hne]
    rfl
  · exact alook_ainsert_self

/-- Witness for C5 at a concrete traversal id with a one-byte payload. -/
theorem c5_store_path_witness :
    (([7] : List Nat) ≠ []) ∧
    (store cfgD true st9b ⟨"../../etc/passwd", "", 0, [7], false⟩ =
      some { st9b with
        files := ainsert st9b.files
          (pathJoin cfgD.datadir
            (pathClean ("../../etc/passwd" : String) ++ cfgD.outputSuffix)) [7],
        done := st9b.done + 1 } ∧
    alook (ainsert st9b.files
        (pathJoin cfgD.datadir
          (pathClean ("../../etc/passwd" : String) ++ cfgD.outputSuffix)) [7])
      (pathJoin cfgD.datadir
        (pathClean ("../../etc/passwd" : String) ++ cfgD.outputSuffix)) =
      some [7]) :=
  ⟨by decide,
    c5_store_path cfgD st9b ⟨"../../etc/passwd", "", 0, [7], false⟩ (by decide)⟩

theorem loadStep_eq (cfg : Config) (fs : List (String × List Nat))
    (a : List (String × Item) × Nat) (j : Nat × (String × String)) :
    loadStep cfg fs a j.1 j.2 =
      if fileExists fs (outputFileName cfg (jobId j)) then (a.1, a.2 + 1)
      else (ainsert a.1 (jobId j)
        ⟨jobId j, normalizeTarget cfg.scheme j.2.2⟩, a.2) := rfl

theorem foldl_jobs (cfg : Config) (fs : List (String × List Nat))
    (L : List Nat) (pages : List (String × String))
    (init : List (String × Item) × Nat) :
    L.foldl (fun acc s => pages.foldl (fun a pg => loadStep cfg fs a s pg) acc)
        init =
      (L.flatMap (fun s => pages.map (fun pg => (s, pg)))).foldl
        (fun a j => loadStep cfg fs a j.1 j.2) init := by
  induction L generalizing init with
  | nil => rfl
  | cons s rest ih =>
    rw [List.foldl_cons, List.flatMap_cons, List.foldl_append, List.foldl_map,
      ih]

theorem loadAll_eq_jobs (cfg : Config) (fs : List (String × List Nat))
    (pages : List (String × String)) (samples : Nat) :
    loadAll cfg fs pages samples =
      (jobs pages samples).foldl (fun a j => loadStep cfg fs a j.1 j.2)
        ([], 0) := by
  unfold loadAll jobs
  exact foldl_jobs cfg fs (List.range samples) pages ([], 0)

theorem fold_done (cfg : Config) (fs : List (String × List Nat))
    (js : List (Nat × (String × String))) (a : List (String × Item) × Nat) :
    (js.foldl (fun a j => loadStep cfg fs a j.1 j.2) a).2 =
      a.2 + js.countP
        (fun j => fileExists fs (outputFileName cfg (jobId j))) := by
  induction js generalizing a with
  | nil => simp
  | cons j rest ih =>
    rw [List.foldl_cons, ih, List.countP_cons, loadStep_eq]
    by_cases hx : fileExists fs (outputFileName cfg (jobId j)) = true
    · rw [if_pos hx]
      simp [hx]
      omega
    · rw [if_neg hx]
      simp [hx]

theorem fold_lookup_away (cfg : Config) (fs : List (String × List Nat))
    (js : List (Nat × (String × String))) (a : List (String × Item) × Nat)
    (k : String) (h : ∀ j ∈ js, jobId j ≠ k) :
    alook (js.foldl (fun a j => loadStep cfg fs a j.1 j.2) a).1 k =
      alook a.1 k := by
  induction js generalizing a with
  | nil => rfl
  | cons j rest ih =>
    rw [List.foldl_cons, ih _ (fun j2 h2 => h j2 (List.mem_cons_of_mem _ h2)),
      loadStep_eq]
    have hk : k ≠ jobId j := fun he => h j (List.mem_cons_self _ _) he.symm
    by_cases hx : fileExists fs (outputFileName cfg (jobId j)) = true
    · rw [if_pos hx]
    · rw [if_neg hx]
      exact alook_ainsert_ne hk

theorem fold_lookup_mem (cfg : Config) (fs : List (String × List Nat))
    (js : List (Nat × (String × String))) (a : List (String × Item) × Nat)
    (j : Nat × (String × String)) (hj : j ∈ js)
    (hnd : (js.map jobId).Nodup) (ha : alook a.1 (jobId j) = none) :
    alook (js.foldl (fun a j => loadStep cfg fs a j.1 j.2) a).1 (jobId j) =
      if fileExists fs (outputFileName cfg (jobId j)) then none
      else some ⟨jobId j, normalizeTarget cfg.scheme j.2.2⟩ := by
  induction js generalizing a with
  | nil => cases hj
  | cons j0 rest ih =>
    rw [List.map_cons] at hnd
    obtain ⟨hnotm, hndr⟩ := List.nodup_cons.mp hnd
    rw [List.foldl_cons, loadStep_eq]
    rcases List.mem_cons.mp hj with he | hm
    · subst he
      have hrest : ∀ j2 ∈ rest, jobId j2 ≠ jobId j := by
        intro j2 h2 he2
        exact hnotm (he2 ▸ List.mem_map_of_mem jobId h2)
      rw [fold_lookup_away cfg fs rest _ _ hrest]
      by_cases hx : fileExists fs (outputFileName cfg (jobId j)) = true
      · rw [if_pos hx, if_pos hx]
        exact ha
      · rw [if_neg hx, if_neg hx]
        exact alook_ainsert_self
    · have hne : jobId j ≠ jobId j0 := by
        intro he2
        exact hnotm (he2 ▸ List.mem_map_of_mem jobId hm)
      by_cases hx : fileExists fs (outputFileName cfg (jobId j0)) = true
      · rw [if_pos hx]
        exact ih _ hm hndr ha
      · rw [if_neg hx]
        exact ih _ hm hndr ((alook_ainsert_ne hne).trans ha)

/-- Claim C7: for every sample index below the sample count and every table
row, the loader derives the id of the row identifier and the index; when
the output file for that id already exists no unit is created for it and the
completed counter counts it (the final counter is exactly the number of
pre-existing outputs); otherwise the ledger gains a unit with that id and
the row target normalized with the default scheme. -/
theorem c7_target_loader (cfg : Config) (fs : List (String × List Nat))
    (pages : List (String × String)) (samples : Nat) (s : Nat)
    (pg : String × String) (hs : s < samples) (hpg : pg ∈ pages)
    (hnd : ((jobs pages samples).map jobId).Nodup) :
    (initState cfg fs pages samples).done =
      (jobs pages samples).countP
        (fun j => fileExists fs (outputFileName cfg (jobId j))) ∧
    (fileExists fs (outputFileName cfg (pg.1 ++ "-" ++ toString s)) = true →
      alook (initState cfg fs pages samples).work
        (pg.1 ++ "-" ++ toString s) = none) ∧
    (fileExists fs (outputFileName cfg (pg.1 ++ "-" ++ toString s)) = false →
      alook (initState cfg fs pages samples).work (pg.1 ++ "-" ++ toString s) =
        some ⟨pg.1 ++ "-" ++ toString s, normalizeTarget cfg.scheme pg.2⟩) := by
  have hmem : (s, pg) ∈ jobs pages samples := by
    unfold jobs
    exact List.mem_flatMap.mpr
      ⟨s, List.mem_range.mpr hs, List.mem_map_of_mem _ hpg⟩
  have hwork : (initState cfg fs pages samples).work =
      ((jobs pages samples).foldl (fun a j => loadStep cfg fs a j.1 j.2)
        ([], 0)).1 := by
    show (loadAll cfg fs pages samples).1 = _
    rw [loadAll_eq_jobs]
  have hdone : (initState cfg fs pages samples).done =
      ((jobs pages samples).foldl (fun a j => loadStep cfg fs a j.1 j.2)
        ([], 0)).2 := by
    show (loadAll cfg fs pages samples).2 = _
    rw [loadAll_eq_jobs]
  have hfold := fold_lookup_mem cfg fs (jobs pages samples) ([], 0) (s, pg)
    hmem hnd rfl
  have hid : jobId (s, pg) = pg.1 ++ "-" ++ toString s := rfl
  rw [hid] at hfold
  refine ⟨?_, ?_, ?_⟩
  · rw [hdone, fold_done]
    simp
  · intro hx
    rw [hwork, hfold, if_pos hx]
  · intro hx
    rw [hwork, hfold, if_neg (by simp [hx])]

/-- Witness for C7: a two-row table with one sample against a filesystem
already holding the output for a-0: the counter pre-counts a-0, no unit is
created for it, and b-0 is inserted with the default scheme applied. -/
theorem c7_target_loader_witness :
    (0 < 1) ∧ (("b", "b.com") ∈ [("a", "a.com"), ("b", "b.com")]) ∧
    ((jobs [("a", "a.com"), ("b", "b.com")] 1).map jobId).Nodup ∧
    ((initState cfgD [("data/a-0.pcap", [9])] [("a", "a.com"), ("b", "b.com")]
        1).done =
      (jobs [("a", "a.com"), ("b", "b.com")] 1).countP
        (fun j => fileExists [("data/a-0.pcap", [9])]
          (outputFileName cfgD (jobId j))) ∧
    (fileExists [("data/a-0.pcap", [9])]
        (outputFileName cfgD ("b" ++ "-" ++ toString 0)) = true →
      alook (initState cfgD [("data/a-0.pcap", [9])]
          [("a", "a.com"), ("b", "b.com")] 1).work
        ("b" ++ "-" ++ toString 0) = none) ∧
    (fileExists [("data/a-0.pcap", [9])]
        (outputFileName cfgD ("b" ++ "-" ++ toString 0)) = false →
      alook (initState cfgD [("data/a-0.pcap", [9])]
          [("a", "a.com"), ("b", "b.com")] 1).work ("b" ++ "-" ++ toString 0) =
        some ⟨"b" ++ "-" ++ toString 0, normalizeTarget cfgD.scheme "b.com"⟩)) :=
  ⟨by decide, by decide, by decide,
    c7_target_loader cfgD [("data/a-0.pcap", [9])]
      [("a", "a.com"), ("b", "b.com")] 1 0 ("b", "b.com")
      (by decide) (by decide) (by decide)⟩

theorem intake_measure_le {cfg : Config} {wOk : Bool} {st st1 : ServerState}
    {b : Browse} (hint : intake cfg wOk st b = some st1) :
    st1.work.length + st1.done ≤
      st.work.length + st.done + (if b.ID = "" then 0 else 1) := by
  unfold intake at hint
  by_cases hid : b.ID = ""
  · rw [if_pos hid] at hint
    injection hint with h
    subst h
    simp [hid]
  · simp only [if_neg hid] at hint ⊢
    by_cases hlen : cfg.minDataLen ≤ b.Data.length
    · rw [if_pos hlen] at hint
      unfold store at hint
      by_cases hpos : 0 < b.Data.length
      · rw [if_pos hpos] at hint
        cases wOk with
        | false => simp at hint
        | true =>
          simp only [if_pos] at hint
          split at hint
          · injection hint with h
            subst h
            have := len_aerase_le st.work b.ID
            simp
            omega
          · injection hint with h
            subst h
            simp
            omega
      · rw [if_neg hpos] at hint
        dsimp only at hint
        split at hint
        · injection hint with h
          subst h
          have := len_aerase_le st.work b.ID
          simp
          omega
        · injection hint with h
          subst h
          simp
          omega
    · rw [if_neg hlen] at hint
      injection hint with h
      subst h
      have := len_ainsert_le st.work b.ID ⟨b.ID, toggleWWW b.URL⟩
      simp
      omega

theorem work_measure (cfg : Config) (wOk : Bool) (sel : Nat)
    (st : ServerState) {req : Req} {b : Browse} (hb : req.BrowsePtr = some b) :
    Work cfg wOk sel st req = .ioError (registryUpdate st req.WorkerID) ∨
    ∃ st2 out, Work cfg wOk sel st req = .ok st2 out ∧
      st2.work.length + st2.done + (if out.ID = "" then 0 else 1) ≤
        st.work.length + st.done + (if b.ID = "" then 0 else 1) := by
  cases hint : intake cfg wOk (registryUpdate st req.WorkerID) b with
  | none => exact Or.inl (work_err hb hint)
  | some st1 =>
    right
    refine ⟨(assign cfg sel st1).1, (assign cfg sel st1).2,
      work_ok hb hint, ?_⟩
    have hm := intake_measure_le hint
    rw [registry_work, registry_done] at hm
    have h1 := assign_shrinks cfg sel st1
    have h2 := (assign_keeps cfg sel st1).1
    omega

theorem stepPoll_measure {cfg : Config} {wOk : Bool} {sel : Nat}
    {t u : ServerState × List String} {req : Req} {b : Browse}
    (hb : req.BrowsePtr = some b) (hwb : b.ID = "" ∨ b.ID ∈ t.2)
    (hstep : stepPoll cfg wOk sel t req = some u) :
    wipMeasure u ≤ wipMeasure t := by
  unfold stepPoll at hstep
  rw [hb] at hstep
  dsimp only at hstep
  rcases work_measure cfg wOk sel t.1 hb with
    hW | ⟨st2, out, hW, hle⟩
  · rw [hW] at hstep
    injection hstep with h
    subst h
    unfold wipMeasure
    rw [registry_work, registry_done]
  · rw [hW] at hstep
    injection hstep with h
    subst h
    unfold wipMeasure
    dsimp only
    by_cases hid : b.ID = ""
    · rw [if_pos hid] at *
      by_cases hout : out.ID = ""
      · rw [if_pos hout] at *
        simp at hle ⊢
        omega
      · rw [if_neg hout] at *
        simp at hle ⊢
        omega
    · have hmem : b.ID ∈ t.2 := hwb.resolve_left hid
      have herase : (t.2.erase b.ID).length = t.2.length - 1 :=
        List.length_erase_of_mem hmem
      have hpos : 0 < t.2.length :=
        List.length_pos.mpr (List.ne_nil_of_mem hmem)
      rw [if_neg hid] at *
      by_cases hout : out.ID = ""
      · rw [if_pos hout] at *
        simp at hle ⊢
        omega
      · rw [if_neg hout] at *
        simp at hle ⊢
        omega

theorem reach_measure {cfg : Config} {s u : ServerState × List String}
    (h : Reach cfg s u) : wipMeasure u ≤ wipMeasure s := by
  induction h with
  | refl => exact le_refl _
  | step req wOk sel b hr hb hwb hstep ih =>
    exact le_trans (stepPoll_measure hb hwb hstep) ih

theorem fold_measure (cfg : Config) (fs : List (String × List Nat))
    (js : List (Nat × (String × String))) (a : List (String × Item) × Nat) :
    ((js.foldl (fun a j => loadStep cfg fs a j.1 j.2) a).1).length +
      (js.foldl (fun a j => loadStep cfg fs a j.1 j.2) a).2 ≤
      a.1.length + a.2 + js.length := by
  induction js generalizing a with
  | nil => simp
  | cons j rest ih =>
    rw [List.foldl_cons, loadStep_eq]
    by_cases hx : fileExists fs (outputFileName cfg (jobId j)) = true
    · rw [if_pos hx]
      refine le_trans (ih _) ?_
      simp
      omega
    · rw [if_neg hx]
      refine le_trans (ih _) ?_
      have := len_ainsert_le a.1 (jobId j)
        ⟨jobId j, normalizeTarget cfg.scheme j.2.2⟩
      simp
      omega

theorem jobs_length (pages : List (String × String)) (samples : Nat) :
    (jobs pages samples).length = samples * pages.length := by
  unfold jobs
  induction samples with
  | zero => simp
  | succ n ih =>
    rw [List.range_succ, List.flatMap_append, List.length_append, ih,
      Nat.succ_mul]
    simp

theorem init_measure (cfg : Config) (fs : List (String × List Nat))
    (pages : List (String × String)) (samples : Nat) :
    (initState cfg fs pages samples).work.length +
      (initState cfg fs pages samples).done ≤ pages.length * samples := by
  show (loadAll cfg fs pages samples).1.length +
    (loadAll cfg fs pages samples).2 ≤ _
  rw [loadAll_eq_jobs]
  have h := fold_measure cfg fs (jobs pages samples) ([], 0)
  rw [jobs_length, Nat.mul_comm] at h
  simpa using h

/-- Claim C8: along every sequence of polls from well-behaved workers (each
reported non-empty id was previously handed out and each handout is reported
at most once), the ledger size plus the completed counter plus the number of
outstanding handed-out units never exceeds the initial total of table rows
times samples. -/
theorem c8_conservation (cfg : Config) (fs : List (String × List Nat))
    (pages : List (String × String)) (samples : Nat)
    (s : ServerState × List String)
    (h : Reach cfg (initState cfg fs pages samples, []) s) :
    s.1.work.length + s.1.done + s.2.length ≤ pages.length * samples := by
  have h1 := reach_measure h
  have h2 := init_measure cfg fs pages samples
  unfold wipMeasure at h1
  simp at h1
  omega

/-- Witness for C8 at the zero-length trace on a one-row one-sample table:
the seeded state satisfies the bound. -/
theorem c8_conservation_witness :
    Reach cfg9 (initState cfg9 [] [("a", "a.com")] 1, [])
      (initState cfg9 [] [("a", "a.com")] 1, []) ∧
    ((initState cfg9 [] [("a", "a.com")] 1, []) :
        ServerState × List String).1.work.length +
      ((initState cfg9 [] [("a", "a.com")] 1, []) :
        ServerState × List String).1.done +
      ((initState cfg9 [] [("a", "a.com")] 1, []) :
        ServerState × List String).2.length ≤
      ([("a", "a.com")] : List (String × String)).length * 1 :=
  ⟨Reach.refl _, c8_conservation cfg9 [] [("a", "a.com")] 1 _ (Reach.refl _)⟩

/-- Claim C9: the end-to-end scenario on a one-row table (id a, target
a.com), one sample and threshold 10, with the default scheme left empty so
that the target stays a.com: the first poll registers w1 and hands out a-0
with target a.com; the second poll reporting a five-byte payload is
rejected, the intake re-gains a-0 with target www.a.com and the reply
assigns it again; the third poll reporting twelve bytes is accepted, the
file is written, the counter reaches 1, the ledger is empty and the reply
carries the empty id. -/
theorem c9_scenario :
    st9 = { work := [("a-0", ⟨"a-0", "a.com"⟩)], workers := [], done := 0,
            files := [] } ∧
    Work cfg9 true 0 st9 ⟨"w1", some { zeroBrowse with ID := "" }⟩ =
      .ok st9b ⟨"a-0", "a.com", 15, [], false⟩ ∧
    st9b.workers = ["w1"] ∧
    intake cfg9 true (registryUpdate st9b "w1")
        ⟨"a-0", "a.com", 15, pay5, false⟩ =
      some { work := [("a-0", ⟨"a-0", "www.a.com"⟩)], workers := ["w1"],
             done := 0, files := [] } ∧
    Work cfg9 true 0 st9b ⟨"w1", some ⟨"a-0", "a.com", 15, pay5, false⟩⟩ =
      .ok st9b ⟨"a-0", "www.a.com", 15, [], false⟩ ∧
    Work cfg9 true 0 st9b ⟨"w1", some ⟨"a-0", "www.a.com", 15, pay12, false⟩⟩ =
      .ok { work := [], workers := ["w1"], done := 1,
            files := [("data/a-0.pcap", pay12)] }
        ⟨"", "", 15, [], false⟩ := by
  refine ⟨by decide, by decide, by decide, by decide, by decide, by decide⟩

end Defector
